import Mathlib

/-!
Menu navigator (`main.go`): state machine and renderer

A shallow embedding of `model`, `model.Update`, `model.View` and `centerText`
from `src/main.go`.

Modelling conventions

* A Go `string` is a list of Unicode characters (`GoString`); `len` is the
  number of UTF-8 bytes, as in Go.  Only valid UTF-8 strings are modelled.
* Go `int` is `Int`.  Every arithmetic step of `Update` and `View` stays far
  away from the 64-bit range (`cursor--` is guarded by `cursor > 0`, `cursor++`
  by `cursor < 1`, `subCursor++` by `subCursor < 4`, and `width - len` is taken
  with `width = 25`), so no wrap-around is modelled.  In `centerText` with an
  arbitrary width, `width - len` can only wrap when it is below `-2^63`; the
  wrapped value is a count no allocation can hold, and the model, where the
  difference is negative, fails there as well.
* A run-time panic is `none`: `strings.Repeat` panics on a negative count and
  on a result longer than the runtime can allocate (`maxAlloc`), and so do
  `centerText` and `View` when they call it with such a count.  Running out of
  physical memory below that limit is not modelled.
* `clipboard.WriteAll` is an external call.  Its outcome is an input of
  `Update` (`writeFails`); the clipboard contents are not modelled.
-/

set_option maxRecDepth 16384

namespace MenuNav

/-- Go strings, as lists of characters. -/
abbrev GoString := List Char

/-- Go builtin `len` on a string: the number of bytes of its UTF-8 encoding. -/
def len (s : GoString) : Int :=
  ((s.map fun c => c.utf8Size).sum : Nat)

/-- Go `unicode.IsSpace`: the characters `strings.TrimSpace` removes. -/
def isSpace (c : Char) : Bool :=
  c = '\t' || c = '\n' || c = Char.ofNat 0x0B || c = Char.ofNat 0x0C || c = '\r' || c = ' '
    || c = Char.ofNat 0x85 || c = Char.ofNat 0xA0 || c = Char.ofNat 0x1680
    || (0x2000 ≤ c.toNat && c.toNat ≤ 0x200A)
    || c = Char.ofNat 0x2028 || c = Char.ofNat 0x2029 || c = Char.ofNat 0x202F
    || c = Char.ofNat 0x205F || c = Char.ofNat 0x3000

/-- Go `strings.TrimSpace`: drop leading and trailing white space. -/
def stringsTrimSpace (s : GoString) : GoString :=
  ((s.dropWhile isSpace).reverse.dropWhile isSpace).reverse

/-- Go `strings.Split(s, sep)` for a one-character separator (the program only
splits on a line feed): the pieces between the separators, one more than there
are separators. -/
def stringsSplit (sep : Char) : GoString → List GoString
  | [] => [[]]
  | c :: cs =>
    if c = sep then [] :: stringsSplit sep cs
    else
      match stringsSplit sep cs with
      | [] => [[c]]
      | piece :: pieces => (c :: piece) :: pieces

/-- Go `strings.Join(elems, sep)`. -/
def stringsJoin (sep : GoString) : List GoString → GoString
  | [] => []
  | [e] => e
  | e :: es => e ++ sep ++ stringsJoin sep es

/-- The largest size in bytes of one allocation of the Go runtime on a 64-bit
platform (`maxAlloc` of `runtime/malloc.go`, 48 address bits); a longer slice
makes the runtime panic with `makeslice: len out of range`. -/
def maxAlloc : Nat := 2 ^ 48

/-- Go `strings.Repeat(s, count)`: panics (`none`) when `count` is negative
(`negative Repeat count`) and when the result, `len(s) * count` bytes, is
longer than the runtime can allocate (`Repeat output length overflow` above
the `int` range, `makeslice: len out of range` above `maxAlloc`). -/
def stringsRepeat (s : GoString) (count : Int) : Option GoString :=
  if count < 0 then none
  else if (maxAlloc : Int) < len s * count then none
  else some ((List.replicate count.toNat s).flatten)

/-- Go `strings.Contains(s, substr)`. -/
def stringsContains : GoString → GoString → Bool
  | [], substr => substr.isEmpty
  | c :: cs, substr => substr.isPrefixOf (c :: cs) || stringsContains cs substr

/-- Padding computed by `centerText` for one line (Go integer division
truncates toward zero). -/
def padding (width : Int) (line : GoString) : Int :=
  (width - len (stringsTrimSpace line)).tdiv 2

/-- Body of the loop of `centerText` over the remaining lines. -/
def centerLines (width : Int) : List GoString → Option (List GoString)
  | [] => some []
  | line :: rest =>
    let trimmedLine := stringsTrimSpace line
    match stringsRepeat [' '] (padding width line) with
    | none => none
    | some pad =>
      match centerLines width rest with
      | none => none
      | some centeredLines => some ((pad ++ trimmedLine) :: centeredLines)

/-- Source `centerText(text, width)`. -/
def centerText (text : GoString) (width : Int) : Option GoString :=
  match centerLines width (stringsSplit '\n' text) with
  | none => none
  | some centeredLines => some (stringsJoin ['\n'] centeredLines)

/-- Source `model`. -/
structure model where
  cursor : Int
  subCursor : Int
  selected : Bool
  option : GoString
  subOptions : Bool
  showLorem : Bool
  copyStatus : GoString
  deriving DecidableEq, Repr

/-- The zero value `model{}` handed to `tea.NewProgram`. -/
def initModel : model :=
  { cursor := 0, subCursor := 0, selected := false, option := [],
    subOptions := false, showLorem := false, copyStatus := [] }

/-- A `tea.Msg`: a key press, identified by `msg.String()`, or any other message. -/
inductive Msg where
  | key (name : String)
  | other
  deriving DecidableEq, Repr

/-- The `tea.Cmd` returned by `Update`: `nil` or `tea.Quit`. -/
inductive Cmd where
  | nil
  | quit
  deriving DecidableEq, Repr

/-- The option name `"OCOR"`. -/
def optOCOR : GoString := "OCOR".toList

/-- The option name `"CRAFT"`. -/
def optCRAFT : GoString := "CRAFT".toList

/-- Status text assigned by the copy action. -/
def copiedText : GoString := "Texto copiado al portapapeles".toList

/-- Text shown in the detail view and written to the clipboard. -/
def loremText : GoString := "plantilla personalizada".toList

/-- External `clipboard.WriteAll(text)`: reports whether it returned an error. -/
def clipboardWriteAll (writeFails : Bool) (_text : GoString) : Bool :=
  writeFails

/-- Source `model.Update`.  `writeFails` is the outcome of the clipboard write,
should this call perform one. -/
def Update (writeFails : Bool) (m : model) (msg : Msg) : model × Cmd :=
  match msg with
  | Msg.key name =>
    if name = "enter" then
      if m.showLorem then
        let _err := clipboardWriteAll writeFails loremText
        ({ m with copyStatus := copiedText }, Cmd.nil)
      else if m.subOptions then
        ({ m with showLorem := true }, Cmd.nil)
      else if m.selected then
        ({ m with subOptions := true, subCursor := 0 }, Cmd.nil)
      else
        ({ m with option := if m.cursor = 0 then optOCOR else optCRAFT,
                  selected := true }, Cmd.nil)
    else if name = "esc" then
      if m.showLorem then
        ({ m with showLorem := false, copyStatus := [] }, Cmd.nil)
      else if m.subOptions then
        ({ m with subOptions := false }, Cmd.nil)
      else
        ({ m with selected := false, option := [] }, Cmd.nil)
    else if name = "up" ∨ name = "k" then
      if m.subOptions ∧ ¬ m.showLorem ∧ m.subCursor > 0 then
        ({ m with subCursor := m.subCursor - 1 }, Cmd.nil)
      else if ¬ m.subOptions ∧ ¬ m.selected ∧ m.cursor > 0 then
        ({ m with cursor := m.cursor - 1 }, Cmd.nil)
      else (m, Cmd.nil)
    else if name = "down" ∨ name = "j" then
      if m.subOptions ∧ ¬ m.showLorem ∧ m.subCursor < 4 then
        ({ m with subCursor := m.subCursor + 1 }, Cmd.nil)
      else if ¬ m.subOptions ∧ ¬ m.selected ∧ m.cursor < 1 then
        ({ m with cursor := m.cursor + 1 }, Cmd.nil)
      else (m, Cmd.nil)
    else if name = "ctrl+c" then
      (m, Cmd.quit)
    else (m, Cmd.nil)
  | Msg.other => (m, Cmd.nil)

/-- Top border of the box. -/
def borderTop : GoString := "╭─────────────────────────╮".toList

/-- Bottom border of the box. -/
def borderBottom : GoString := "╰─────────────────────────╯".toList

/-- Empty row of the box. -/
def spacing : GoString := "│                         │".toList

/-- One submenu line: `fmt.Sprintf("%s%s%s %s%s\n", prefix, color, m.option, option, reset)`
with `prefix`/`color` chosen by `m.subCursor == i`. -/
def subLine (m : model) (i : Int) (option : GoString) : GoString :=
  let pfx : GoString := if m.subCursor = i then "> ".toList else "  ".toList
  let color : GoString := if m.subCursor = i then "\x1b[33m".toList else "\x1b[32m".toList
  let reset : GoString := "\x1b[0m".toList
  pfx ++ color ++ m.option ++ " ".toList ++ option ++ reset ++ "\n".toList

/-- The loop of `View` building the submenu content from index `i` on. -/
def subContent (m : model) (i : Int) : List GoString → GoString
  | [] => []
  | option :: options => subLine m i option ++ subContent m (i + 1) options

/-- The top-menu content built by `View`. -/
def topContent (m : model) : GoString :=
  (if m.cursor = 0 then "> \x1b[34mOCOR\x1b[0m\n".toList else "  OCOR\n".toList)
    ++ (if m.cursor = 1 then "> \x1b[31mCRAFT\x1b[0m\n".toList else "  CRAFT\n".toList)

/-- The frame `fmt.Sprintf("%s\n%s\n%s\n%s\n%s\n", borderTop, spacing, body, spacing, borderBottom)`. -/
def frame (body : GoString) : GoString :=
  borderTop ++ "\n".toList ++ spacing ++ "\n".toList ++ body ++ "\n".toList
    ++ spacing ++ "\n".toList ++ borderBottom ++ "\n".toList

/-- The local `options := []string{"1", "2", "3", "4", "5"}` of `View`. -/
def subLabels : List GoString := ["1".toList, "2".toList, "3".toList, "4".toList, "5".toList]

/-- Source `model.View`; `none` when a call of `centerText` panics. -/
def View (m : model) : Option GoString :=
  if m.showLorem then
    let content := loremText
    let copyText := "[ ".toList ++ m.copyStatus ++ " ]".toList
    match centerText content 25, centerText copyText 25 with
    | some c1, some c2 =>
      some (borderTop ++ "\n".toList ++ spacing ++ "\n│   ".toList ++ c1 ++ "   │\n│   ".toList
        ++ c2 ++ "   │\n".toList ++ spacing ++ "\n".toList ++ borderBottom ++ "\n".toList)
    | _, _ => none
  else if m.subOptions then
    let options : List GoString := subLabels
    let content := subContent m 0 options
    match centerText content 25 with
    | some body => some (frame body)
    | none => none
  else
    let content := topContent m
    match centerText content 25 with
    | some body => some (frame body)
    | none => none

/-- Feed a sequence of messages (each with the outcome of a clipboard write
it may trigger) to `Update`, keeping the model as the runtime does. -/
def run (m : model) : List (Bool × Msg) → model
  | [] => m
  | (w, msg) :: rest => run (Update w m msg).1 rest

/-- States reachable from `model{}` by finitely many calls of `Update`. -/
inductive Reachable : model → Prop
  | init : Reachable initModel
  | step {m : model} (writeFails : Bool) (msg : Msg) :
      Reachable m → Reachable (Update writeFails m msg).1

/-- The key message for a key name. -/
def K (name : String) : Bool × Msg := (false, Msg.key name)

/-- The screen `View` draws, by the order of its tests: the detail box when
`showLorem`, else the submenu when `subOptions`, else the top menu. -/
inductive Phase where
  | TOP
  | SUBMENU
  | DETAIL
  deriving DecidableEq, Repr

/-- The screen `View` draws for a model. -/
def phase (m : model) : Phase :=
  if m.showLorem then Phase.DETAIL
  else if m.subOptions then Phase.SUBMENU
  else Phase.TOP

/-- What holds of every reachable model (proved below). -/
structure Inv (m : model) : Prop where
  cursor_range : m.cursor = 0 ∨ m.cursor = 1
  sub_lo : 0 ≤ m.subCursor
  sub_hi : m.subCursor ≤ 4
  lorem_sub : m.showLorem = true → m.subOptions = true
  sub_sel : m.subOptions = true → m.selected = true
  sel_opt : m.selected = true → m.option = if m.cursor = 0 then optOCOR else optCRAFT
  unsel_opt : m.selected = false → m.option = []
  status_detail : m.showLorem = false → m.copyStatus = []
  status_val : m.copyStatus = [] ∨ m.copyStatus = copiedText

/-- The model with every field `View` does not read set to a fixed value:
`View` reads `copyStatus` in the detail view, `subCursor` and `option` in the
submenu, and `cursor` in the top menu. -/
def viewKey (m : model) : model :=
  if m.showLorem then ⟨0, 0, true, [], true, true, m.copyStatus⟩
  else if m.subOptions then ⟨0, m.subCursor, true, m.option, true, false, []⟩
  else ⟨m.cursor, 0, false, [], false, false, []⟩

/-- The values `viewKey` takes on reachable models (proved below). -/
def reachableKeys : List model :=
  [⟨0, 0, false, [], false, false, []⟩, ⟨1, 0, false, [], false, false, []⟩,
   ⟨0, 0, true, optOCOR, true, false, []⟩, ⟨0, 1, true, optOCOR, true, false, []⟩,
   ⟨0, 2, true, optOCOR, true, false, []⟩, ⟨0, 3, true, optOCOR, true, false, []⟩,
   ⟨0, 4, true, optOCOR, true, false, []⟩,
   ⟨0, 0, true, optCRAFT, true, false, []⟩, ⟨0, 1, true, optCRAFT, true, false, []⟩,
   ⟨0, 2, true, optCRAFT, true, false, []⟩, ⟨0, 3, true, optCRAFT, true, false, []⟩,
   ⟨0, 4, true, optCRAFT, true, false, []⟩,
   ⟨0, 0, true, [], true, true, []⟩, ⟨0, 0, true, [], true, true, copiedText⟩]

/-- A text with its ANSI colour sequences (`ESC [ .. m`) removed; `inEsc`
tells whether the scan is inside such a sequence. -/
def stripAnsi (inEsc : Bool) : GoString → GoString
  | [] => []
  | c :: cs =>
    if inEsc then (if c = 'm' then stripAnsi false cs else stripAnsi true cs)
    else if c = Char.ofNat 0x1b then stripAnsi true cs
    else c :: stripAnsi false cs

/-- Visible width of a line: its displayed characters, colour sequences not counted. -/
def visibleWidth (line : GoString) : Nat :=
  (stripAnsi false line).length

/-- The physical lines of a rendered text. -/
def outputLines (v : GoString) : List GoString :=
  stringsSplit '\n' v

/-- Submenu line number `i` (1 to 5) as the submenu is described: the marker
`"> "` and yellow on the line at `subCursor`, green and no marker on the
others, then the option name, a blank, the index, and the colour reset. -/
def expectedSubLine (o : GoString) (c : Int) (i : Nat) : GoString :=
  (if (i : Int) = c + 1 then "> \x1b[33m".toList else "\x1b[32m".toList)
    ++ o ++ " ".toList ++ [Nat.digitChar i] ++ "\x1b[0m".toList

/-- The two top-menu lines as the top menu is described: OCOR then CRAFT, the
one at `cursor` with the marker `"> "` and its own colour (OCOR blue, CRAFT
red), the other bare. -/
def expectedTopLines (cursor : Int) : List GoString :=
  [if cursor = 0 then "> \x1b[34mOCOR\x1b[0m".toList else "OCOR".toList,
   if cursor = 1 then "> \x1b[31mCRAFT\x1b[0m".toList else "CRAFT".toList]

/-- One centred line as the centring rule is described: the line with its
surrounding white space stripped, left-padded with `(width - length) / 2`
blanks (truncating division). -/
def centeredLine (width : Int) (line : GoString) : GoString :=
  List.replicate ((width - len (stringsTrimSpace line)).tdiv 2).toNat ' '
    ++ stringsTrimSpace line

/-! ## Shared lemmas -/

theorem inv_init : Inv initModel := by
  constructor <;> simp [initModel]

theorem inv_step (w : Bool) (m : model) (msg : Msg) (h : Inv m) : Inv (Update w m msg).1 := by
  obtain ⟨h1, h2, h3, h4, h5, h6, h7, h8, h9⟩ := h
  cases msg with
  | other => exact ⟨h1, h2, h3, h4, h5, h6, h7, h8, h9⟩
  | key name =>
    have e1 : optOCOR ≠ [] := by decide
    have e2 : optCRAFT ≠ [] := by decide
    obtain ⟨c, sc, sel, opt, so, sl, cs⟩ := m
    simp only at h1 h2 h3 h4 h5 h6 h7 h8 h9
    simp only [Update]
    split_ifs <;> constructor <;> simp only [] <;> first | assumption | omega | simp_all

theorem update_enter (w : Bool) (m : model) :
    Update w m (Msg.key "enter") =
      (if m.showLorem then { m with copyStatus := copiedText }
       else if m.subOptions then { m with showLorem := true }
       else if m.selected then { m with subOptions := true, subCursor := 0 }
       else { m with option := if m.cursor = 0 then optOCOR else optCRAFT, selected := true },
       Cmd.nil) := by
  simp only [Update, if_true]
  split_ifs <;> rfl

theorem update_esc (w : Bool) (m : model) :
    Update w m (Msg.key "esc") =
      (if m.showLorem then { m with showLorem := false, copyStatus := [] }
       else if m.subOptions then { m with subOptions := false }
       else { m with selected := false, option := [] },
       Cmd.nil) := by
  have h : ¬ ("esc" = "enter") := by decide
  simp only [Update, if_true, if_neg h]
  split_ifs <;> rfl

theorem update_up (w : Bool) (m : model) (name : String) (hn : name = "up" ∨ name = "k") :
    Update w m (Msg.key name) =
      (if m.subOptions ∧ ¬ m.showLorem ∧ m.subCursor > 0 then
         { m with subCursor := m.subCursor - 1 }
       else if ¬ m.subOptions ∧ ¬ m.selected ∧ m.cursor > 0 then
         { m with cursor := m.cursor - 1 }
       else m,
       Cmd.nil) := by
  have h1 : ¬ (name = "enter") := by rcases hn with h | h <;> subst h <;> decide
  have h2 : ¬ (name = "esc") := by rcases hn with h | h <;> subst h <;> decide
  simp only [Update, if_neg h1, if_neg h2, if_pos hn]
  split_ifs <;> rfl

theorem update_down (w : Bool) (m : model) (name : String) (hn : name = "down" ∨ name = "j") :
    Update w m (Msg.key name) =
      (if m.subOptions ∧ ¬ m.showLorem ∧ m.subCursor < 4 then
         { m with subCursor := m.subCursor + 1 }
       else if ¬ m.subOptions ∧ ¬ m.selected ∧ m.cursor < 1 then
         { m with cursor := m.cursor + 1 }
       else m,
       Cmd.nil) := by
  have h1 : ¬ (name = "enter") := by rcases hn with h | h <;> subst h <;> decide
  have h2 : ¬ (name = "esc") := by rcases hn with h | h <;> subst h <;> decide
  have h3 : ¬ (name = "up" ∨ name = "k") := by rcases hn with h | h <;> subst h <;> decide
  simp only [Update, if_neg h1, if_neg h2, if_neg h3, if_pos hn]
  split_ifs <;> rfl

theorem update_rest (w : Bool) (m : model) (msg : Msg)
    (h1 : msg ≠ Msg.key "enter") (h2 : msg ≠ Msg.key "esc")
    (h3 : msg ≠ Msg.key "up") (h4 : msg ≠ Msg.key "k")
    (h5 : msg ≠ Msg.key "down") (h6 : msg ≠ Msg.key "j") :
    (Update w m msg).1 = m := by
  cases msg with
  | other => rfl
  | key name =>
    have g1 : ¬ (name = "enter") := fun h => h1 (by rw [h])
    have g2 : ¬ (name = "esc") := fun h => h2 (by rw [h])
    have g3 : ¬ (name = "up" ∨ name = "k") := by
      rintro (h | h)
      · exact h3 (by rw [h])
      · exact h4 (by rw [h])
    have g4 : ¬ (name = "down" ∨ name = "j") := by
      rintro (h | h)
      · exact h5 (by rw [h])
      · exact h6 (by rw [h])
    simp only [Update, if_neg g1, if_neg g2, if_neg g3, if_neg g4]
    split_ifs <;> rfl

theorem subContent_congr (m m' : model) (hs : m.subCursor = m'.subCursor)
    (ho : m.option = m'.option) (i : Int) (ls : List GoString) :
    subContent m i ls = subContent m' i ls := by
  induction ls generalizing i with
  | nil => rfl
  | cons l rest ih => simp only [subContent, subLine, hs, ho, ih]

theorem view_congr (m m' : model) (h1 : m.showLorem = m'.showLorem)
    (h2 : m.subOptions = m'.subOptions) (h3 : m.subCursor = m'.subCursor)
    (h4 : m.option = m'.option) (h5 : m.cursor = m'.cursor)
    (h6 : m.copyStatus = m'.copyStatus) : View m = View m' := by
  simp only [View, topContent, h1, h2, h5, h6, subContent_congr m m' h3 h4]

theorem view_submenu_congr (m m' : model) (h1 : m.showLorem = false)
    (h1' : m'.showLorem = false) (h2 : m.subOptions = true) (h2' : m'.subOptions = true)
    (h3 : m.subCursor = m'.subCursor) (h4 : m.option = m'.option) : View m = View m' := by
  simp [View, h1, h1', h2, h2', subContent_congr m m' h3 h4]

theorem view_detail_congr (m m' : model) (h1 : m.showLorem = true)
    (h1' : m'.showLorem = true) (h2 : m.copyStatus = m'.copyStatus) : View m = View m' := by
  simp [View, h1, h1', h2]

theorem detail_step_no_esc (w : Bool) (m : model) (msg : Msg) (hd : m.showLorem = true)
    (hs : m.subOptions = true) (hne : msg ≠ Msg.key "esc") :
    (Update w m msg).1 = { m with copyStatus := (Update w m msg).1.copyStatus } := by
  cases msg with
  | other => rfl
  | key name =>
    have g : ¬ (name = "esc") := fun h => hne (by rw [h])
    obtain ⟨c, sc, sel, opt, so, sl, cs⟩ := m
    simp only at hd hs
    subst hd hs
    simp only [Update, if_neg g]
    split_ifs <;> simp_all

theorem detail_run_no_esc (ins : List (Bool × Msg)) (m : model) (hd : m.showLorem = true)
    (hs : m.subOptions = true) (hne : ∀ i ∈ ins, i.2 ≠ Msg.key "esc") :
    run m ins = { m with copyStatus := (run m ins).copyStatus } := by
  induction ins generalizing m with
  | nil => rfl
  | cons i rest ih =>
    obtain ⟨w, msg⟩ := i
    have hstep := detail_step_no_esc w m msg hd hs (hne (w, msg) (List.mem_cons_self _ _))
    have hd' : (Update w m msg).1.showLorem = true := by rw [hstep]; exact hd
    have hs' : (Update w m msg).1.subOptions = true := by rw [hstep]; exact hs
    have hrest := ih (Update w m msg).1 hd' hs' (fun j hj => hne j (List.mem_cons_of_mem _ hj))
    simp only [run]
    rw [hrest]
    rw [hstep]

theorem other_keys_keep_flags (w : Bool) (m : model) (msg : Msg)
    (h1 : msg ≠ Msg.key "enter") (h2 : msg ≠ Msg.key "esc") :
    (Update w m msg).1.showLorem = m.showLorem ∧
    (Update w m msg).1.subOptions = m.subOptions ∧
    (Update w m msg).1.selected = m.selected ∧
    (Update w m msg).1.option = m.option ∧
    (Update w m msg).1.copyStatus = m.copyStatus := by
  cases msg with
  | other => exact ⟨rfl, rfl, rfl, rfl, rfl⟩
  | key name =>
    have g1 : ¬ (name = "enter") := fun h => h1 (by rw [h])
    have g2 : ¬ (name = "esc") := fun h => h2 (by rw [h])
    simp only [Update, if_neg g1, if_neg g2]
    split_ifs <;> exact ⟨rfl, rfl, rfl, rfl, rfl⟩

theorem inv_of_reachable {m : model} (h : Reachable m) : Inv m := by
  induction h with
  | init => exact inv_init
  | step w msg _ ih => exact inv_step w _ msg ih

theorem reachable_run {m : model} (h : Reachable m) (inputs : List (Bool × Msg)) :
    Reachable (run m inputs) := by
  induction inputs generalizing m with
  | nil => exact h
  | cons i rest ih => exact ih (Reachable.step i.1 i.2 h)

/-! ## C1: rendering after the copy action -/

/-- C1, at the failing input: after four presses of enter the model is a
reachable DETAIL state whose status is the text set by the copy action; the
padding `centerText` computes for the status line `[ Texto copiado al
portapapeles ]` at width 25 is `(25 - 33) / 2 = -4`, so `strings.Repeat` is
called with a negative count and `View` fails instead of returning a string. -/
theorem view_fails_after_copy :
    Reachable (run initModel [K "enter", K "enter", K "enter", K "enter"]) ∧
    (run initModel [K "enter", K "enter", K "enter", K "enter"]).showLorem = true ∧
    (run initModel [K "enter", K "enter", K "enter", K "enter"]).copyStatus = copiedText ∧
    padding 25 ("[ ".toList ++ copiedText ++ " ]".toList) = -4 ∧
    centerText ("[ ".toList ++ copiedText ++ " ]".toList) 25 = none ∧
    View (run initModel [K "enter", K "enter", K "enter", K "enter"]) = none :=
  ⟨reachable_run Reachable.init _, by decide, by decide, by decide, by decide, by decide⟩

/-! ## C2: cursor bounds -/

/-- C2: in every state reachable from `model{}` by any finite sequence of
messages passed to `Update`, `cursor` is 0 or 1 and `subCursor` lies between 0
and 4 inclusive. -/
theorem cursor_bounds_invariant (m : model) (h : Reachable m) :
    (m.cursor = 0 ∨ m.cursor = 1) ∧ 0 ≤ m.subCursor ∧ m.subCursor ≤ 4 :=
  ⟨(inv_of_reachable h).cursor_range, (inv_of_reachable h).sub_lo, (inv_of_reachable h).sub_hi⟩

/-- Witness for C2: the state after down, enter, enter and six times down. -/
theorem cursor_bounds_invariant_witness :
    Reachable (run initModel [K "down", K "enter", K "enter", K "j", K "down", K "down",
      K "down", K "down", K "down"]) ∧
    (((run initModel [K "down", K "enter", K "enter", K "j", K "down", K "down",
      K "down", K "down", K "down"]).cursor = 0 ∨
      (run initModel [K "down", K "enter", K "enter", K "j", K "down", K "down",
      K "down", K "down", K "down"]).cursor = 1) ∧
     0 ≤ (run initModel [K "down", K "enter", K "enter", K "j", K "down", K "down",
      K "down", K "down", K "down"]).subCursor ∧
     (run initModel [K "down", K "enter", K "enter", K "j", K "down", K "down",
      K "down", K "down", K "down"]).subCursor ≤ 4) :=
  ⟨reachable_run Reachable.init _, cursor_bounds_invariant _ (reachable_run Reachable.init _)⟩

/-! ## C3: confirm from the top menu -/

/-- C3 as stated fails: `model{}` is in the top menu with nothing selected and
`cursor = 0`, and one enter leaves `subOptions` unset (the top menu is still
the screen drawn), so the result is not in the submenu. -/
theorem confirm_from_top_one_step_not_submenu :
    initModel.selected = false ∧ initModel.subOptions = false ∧
    initModel.showLorem = false ∧ initModel.cursor = 0 ∧
    ¬ ((Update false initModel (Msg.key "enter")).1.subOptions = true ∧
       (Update false initModel (Msg.key "enter")).1.option = optOCOR ∧
       (Update false initModel (Msg.key "enter")).1.subCursor = 0) ∧
    phase (Update false initModel (Msg.key "enter")).1 = Phase.TOP := by
  decide

/-- C3, amended: from a top-menu state with nothing selected and `cursor` 0 or
1, one enter records the option (`"OCOR"` for 0, `"CRAFT"` for 1) and sets
`selected`, changing nothing else, the top menu still being the screen drawn;
a second enter sets `subOptions` and `subCursor = 0`, changing nothing else,
so the state is in the submenu with that option, and `View` draws the five
lines `<option> 1` .. `<option> 5`. -/
theorem confirm_from_top_two_steps (w1 w2 : Bool) (m : model)
    (hsel : m.selected = false) (hsub : m.subOptions = false) (hlor : m.showLorem = false)
    (hc : m.cursor = 0 ∨ m.cursor = 1) :
    (Update w1 m (Msg.key "enter")) =
      ({ m with selected := true, option := if m.cursor = 0 then optOCOR else optCRAFT },
        Cmd.nil) ∧
    phase (Update w1 m (Msg.key "enter")).1 = Phase.TOP ∧
    (Update w2 (Update w1 m (Msg.key "enter")).1 (Msg.key "enter")) =
      ({ m with selected := true, option := if m.cursor = 0 then optOCOR else optCRAFT,
                subOptions := true, subCursor := 0 }, Cmd.nil) ∧
    phase (Update w2 (Update w1 m (Msg.key "enter")).1 (Msg.key "enter")).1 = Phase.SUBMENU ∧
    (View (Update w2 (Update w1 m (Msg.key "enter")).1 (Msg.key "enter")).1).map
        (fun v => subLabels.all fun l =>
          stringsContains v ((if m.cursor = 0 then optOCOR else optCRAFT) ++ " ".toList ++ l))
      = some true := by
  have e1 : Update w1 m (Msg.key "enter") =
      ({ m with selected := true, option := if m.cursor = 0 then optOCOR else optCRAFT },
        Cmd.nil) := by
    simp [update_enter, hsel, hsub, hlor]
  have e2 : Update w2 (Update w1 m (Msg.key "enter")).1 (Msg.key "enter") =
      ({ m with selected := true, option := if m.cursor = 0 then optOCOR else optCRAFT,
                subOptions := true, subCursor := 0 }, Cmd.nil) := by
    rw [e1]; simp [update_enter, hsub, hlor]
  refine ⟨e1, by rw [e1]; simp [phase, hsub, hlor], e2, by rw [e2]; simp [phase, hlor], ?_⟩
  rcases hc with hc | hc
  · rw [view_submenu_congr (Update w2 (Update w1 m (Msg.key "enter")).1 (Msg.key "enter")).1
      ⟨0, 0, true, optOCOR, true, false, []⟩ (by rw [e2]; exact hlor) rfl (by rw [e2]) rfl
      (by rw [e2]) (by rw [e2]; simp [hc]), hc]
    decide
  · rw [view_submenu_congr (Update w2 (Update w1 m (Msg.key "enter")).1 (Msg.key "enter")).1
      ⟨1, 0, true, optCRAFT, true, false, []⟩ (by rw [e2]; exact hlor) rfl (by rw [e2]) rfl
      (by rw [e2]) (by rw [e2]; simp [hc]), hc]
    decide

/-- Witness for C3 (amended): the initial model moved down once, so `cursor = 1`. -/
theorem confirm_from_top_two_steps_witness :
    (Update false (Update false (run initModel [K "down"]) (Msg.key "enter")).1
      (Msg.key "enter")) =
      ({ cursor := 1, subCursor := 0, selected := true, option := optCRAFT,
         subOptions := true, showLorem := false, copyStatus := [] }, Cmd.nil) :=
  (confirm_from_top_two_steps false false (run initModel [K "down"])
    (by decide) (by decide) (by decide) (by decide)).2.2.1

/-! ## C4: cancel from the submenu -/

/-- C4 as stated fails: in the submenu state reached by enter, enter (option
`"OCOR"`), one esc leaves `selected` set and `option = "OCOR"`, not NONE; and
from there down followed by enter does not select the other option: the
cursor stays at 0 and the option stays `"OCOR"`. -/
theorem cancel_from_submenu_keeps_selection :
    Reachable (run initModel [K "enter", K "enter"]) ∧
    (run initModel [K "enter", K "enter"]).subOptions = true ∧
    (run initModel [K "enter", K "enter"]).showLorem = false ∧
    ¬ ((Update false (run initModel [K "enter", K "enter"]) (Msg.key "esc")).1.option = [] ∧
       (Update false (run initModel [K "enter", K "enter"]) (Msg.key "esc")).1.selected = false) ∧
    (run initModel [K "enter", K "enter", K "esc"]).option = optOCOR ∧
    (run initModel [K "enter", K "enter", K "esc", K "down", K "enter"]).option = optOCOR ∧
    (run initModel [K "enter", K "enter", K "esc", K "down", K "enter"]).cursor = 0 :=
  ⟨reachable_run Reachable.init _, by decide, by decide, by decide, by decide, by decide,
    by decide⟩

/-- C4, amended: for every reachable submenu state (`subOptions` set,
`showLorem` not set), one esc only clears `subOptions`: the top menu is drawn
again while `selected` stays set and `option` keeps its non-empty value; a
second esc clears the selection (`option == ""`, `selected == false`) and
changes nothing else; after that, moving the cursor to the other option (down
from 0, up from 1) and pressing enter sets `option` to that other option. -/
theorem cancel_from_submenu_two_steps (w1 w2 w3 w4 : Bool) (m : model) (h : Reachable m)
    (hsub : m.subOptions = true) (hlor : m.showLorem = false) :
    Update w1 m (Msg.key "esc") = ({ m with subOptions := false }, Cmd.nil) ∧
    phase (run m [(w1, Msg.key "esc")]) = Phase.TOP ∧
    (run m [(w1, Msg.key "esc")]).selected = true ∧
    (run m [(w1, Msg.key "esc")]).option ≠ [] ∧
    run m [(w1, Msg.key "esc"), (w2, Msg.key "esc")] =
      { m with subOptions := false, selected := false, option := [] } ∧
    phase (run m [(w1, Msg.key "esc"), (w2, Msg.key "esc")]) = Phase.TOP ∧
    (run m [(w1, Msg.key "esc"), (w2, Msg.key "esc"),
        (w3, Msg.key (if m.cursor = 0 then "down" else "up"))]).cursor = 1 - m.cursor ∧
    (run m [(w1, Msg.key "esc"), (w2, Msg.key "esc"),
        (w3, Msg.key (if m.cursor = 0 then "down" else "up")),
        (w4, Msg.key "enter")]).option = (if m.cursor = 0 then optCRAFT else optOCOR) ∧
    (run m [(w1, Msg.key "esc"), (w2, Msg.key "esc"),
        (w3, Msg.key (if m.cursor = 0 then "down" else "up")),
        (w4, Msg.key "enter")]).option ≠ m.option := by
  have hi := inv_of_reachable h
  have hsel := hi.sub_sel hsub
  have hopt := hi.sel_opt hsel
  have hcur := hi.cursor_range
  have e1 : optOCOR ≠ [] := by decide
  have e2 : optCRAFT ≠ [] := by decide
  have e3 : optCRAFT ≠ optOCOR := by decide
  have e4 : optOCOR ≠ optCRAFT := by decide
  obtain ⟨c, sc, sel, opt, so, sl, cs⟩ := m
  simp only at hsub hlor hsel hopt hcur
  subst hsub hlor hsel
  rcases hcur with hc | hc <;> subst hc
  · simp only [if_true] at hopt
    subst hopt
    refine ⟨?_, ?_, ?_, ?_, ?_, ?_, ?_, ?_, ?_⟩ <;>
      simp [run, update_esc, update_enter, update_down, phase, e1, e3]
  · simp only [one_ne_zero, if_false] at hopt
    subst hopt
    refine ⟨?_, ?_, ?_, ?_, ?_, ?_, ?_, ?_, ?_⟩ <;>
      simp [run, update_esc, update_enter, update_up, phase, e2, e4]

/-- Witness for C4 (amended): the submenu state reached by down, enter, enter. -/
theorem cancel_from_submenu_two_steps_witness :
    Reachable (run initModel [K "down", K "enter", K "enter"]) ∧
    (run initModel [K "down", K "enter", K "enter"]).option = optCRAFT ∧
    (run (run initModel [K "down", K "enter", K "enter"])
      [(false, Msg.key "esc"), (false, Msg.key "esc"),
        (false, Msg.key (if (run initModel [K "down", K "enter", K "enter"]).cursor = 0
          then "down" else "up")),
        (false, Msg.key "enter")]).option =
      (if (run initModel [K "down", K "enter", K "enter"]).cursor = 0
        then optCRAFT else optOCOR) :=
  ⟨reachable_run Reachable.init _, by decide,
    (cancel_from_submenu_two_steps false false false false
      (run initModel [K "down", K "enter", K "enter"]) (reachable_run Reachable.init _)
      (by decide) (by decide)).2.2.2.2.2.2.2.1⟩

/-! ## C5: the status set by the copy action -/

/-- C5 as stated fails: in the detail state reached by three presses of enter,
a further enter with a successful clipboard write sets a status that is not
`"Text copied to clipboard"`, and `View` of the resulting state does not
produce a string containing `[ Text copied to clipboard ]` (it produces no
string at all). -/
theorem copy_status_is_not_english :
    Reachable (run initModel [K "enter", K "enter", K "enter"]) ∧
    (run initModel [K "enter", K "enter", K "enter"]).showLorem = true ∧
    (Update false (run initModel [K "enter", K "enter", K "enter"])
      (Msg.key "enter")).1.copyStatus ≠ "Text copied to clipboard".toList ∧
    (View (Update false (run initModel [K "enter", K "enter", K "enter"])
      (Msg.key "enter")).1).map
        (fun v => stringsContains v "[ Text copied to clipboard ]".toList) ≠ some true :=
  ⟨reachable_run Reachable.init _, by decide, by decide, by decide⟩

/-- C5, amended: for every state in the detail phase (`showLorem` set),
reachable or not, `Update` with enter when the clipboard write succeeds
returns the state with `copyStatus` exactly `"Texto copiado al portapapeles"`,
every other field unchanged, and no command. -/
theorem copy_sets_spanish_status (m : model) (hd : m.showLorem = true) :
    Update false m (Msg.key "enter") =
      ({ m with copyStatus := "Texto copiado al portapapeles".toList }, Cmd.nil) := by
  simp [update_enter, hd, copiedText]

/-- Witness for C5 (amended): the detail state reached by three presses of enter. -/
theorem copy_sets_spanish_status_witness :
    Reachable (run initModel [K "enter", K "enter", K "enter"]) ∧
    Update false (run initModel [K "enter", K "enter", K "enter"]) (Msg.key "enter") =
      ({ run initModel [K "enter", K "enter", K "enter"] with
          copyStatus := "Texto copiado al portapapeles".toList }, Cmd.nil) :=
  ⟨reachable_run Reachable.init _,
    copy_sets_spanish_status (run initModel [K "enter", K "enter", K "enter"]) (by decide)⟩

/-! ## C6: a failing clipboard write -/

/-- C6 as stated fails: in the detail state reached by three presses of enter
the status is empty, and enter with a failing clipboard write yields a state
whose status is not empty. -/
theorem failed_copy_still_sets_status :
    Reachable (run initModel [K "enter", K "enter", K "enter"]) ∧
    (run initModel [K "enter", K "enter", K "enter"]).showLorem = true ∧
    (run initModel [K "enter", K "enter", K "enter"]).copyStatus = [] ∧
    (Update true (run initModel [K "enter", K "enter", K "enter"])
      (Msg.key "enter")).1.copyStatus ≠ [] :=
  ⟨reachable_run Reachable.init _, by decide, by decide, by decide⟩

/-- C6, amended: the outcome of the clipboard write is ignored.  For every
state in the detail phase, `Update` with enter when the write fails returns
exactly what it returns when the write succeeds: the state with `copyStatus`
set to `"Texto copiado al portapapeles"`, every other field unchanged, and no
command (the error is neither reported nor retried). -/
theorem failed_copy_same_as_success (m : model) (hd : m.showLorem = true) :
    Update true m (Msg.key "enter") = Update false m (Msg.key "enter") ∧
    Update true m (Msg.key "enter") =
      ({ m with copyStatus := "Texto copiado al portapapeles".toList }, Cmd.nil) := by
  simp [update_enter, hd, copiedText]

/-- Witness for C6 (amended): the detail state reached by three presses of enter. -/
theorem failed_copy_same_as_success_witness :
    (run initModel [K "enter", K "enter", K "enter"]).copyStatus = [] ∧
    (Update true (run initModel [K "enter", K "enter", K "enter"]) (Msg.key "enter")).1.copyStatus
      = "Texto copiado al portapapeles".toList :=
  ⟨by decide, by
    rw [(failed_copy_same_as_success (run initModel [K "enter", K "enter", K "enter"])
      (by decide)).2]⟩

/-! ## C7: confirm from the submenu -/

/-- C7 as stated fails: in the reachable submenu state with `subCursor = 2`,
enter leads to a detail view whose rendering does not contain the text `[ ]`. -/
theorem empty_status_is_not_single_space :
    Reachable (run initModel [K "enter", K "enter", K "down", K "down"]) ∧
    (run initModel [K "enter", K "enter", K "down", K "down"]).subOptions = true ∧
    (run initModel [K "enter", K "enter", K "down", K "down"]).showLorem = false ∧
    (run initModel [K "enter", K "enter", K "down", K "down"]).subCursor = 2 ∧
    (View (Update false (run initModel [K "enter", K "enter", K "down", K "down"])
      (Msg.key "enter")).1).map (fun v => stringsContains v "[ ]".toList) = some false :=
  ⟨reachable_run Reachable.init _, by decide, by decide, by decide, by decide⟩

/-- C7, amended: for every reachable state in the submenu phase, `Update` with
enter only sets `showLorem`; the result is in the detail phase with
`copyStatus == ""`, and `View` of it returns the box below, which contains the
placeholder `plantilla personalizada` and shows the empty status as `[  ]`
(the two blanks of the format `"[ %s ]"` around nothing). -/
theorem confirm_from_submenu_shows_detail (w : Bool) (m : model) (h : Reachable m)
    (hsub : m.subOptions = true) (hlor : m.showLorem = false) :
    Update w m (Msg.key "enter") = ({ m with showLorem := true }, Cmd.nil) ∧
    phase (Update w m (Msg.key "enter")).1 = Phase.DETAIL ∧
    (Update w m (Msg.key "enter")).1.copyStatus = [] ∧
    View (Update w m (Msg.key "enter")).1 = some
      ("╭─────────────────────────╮\n" ++
       "│                         │\n" ++
       "│    plantilla personalizada   │\n" ++
       "│             [  ]   │\n" ++
       "│                         │\n" ++
       "╰─────────────────────────╯\n").toList ∧
    (View (Update w m (Msg.key "enter")).1).map
      (fun v => stringsContains v "plantilla personalizada".toList
        && stringsContains v "[  ]".toList) = some true := by
  have hst := (inv_of_reachable h).status_detail hlor
  have e : Update w m (Msg.key "enter") = ({ m with showLorem := true }, Cmd.nil) := by
    simp [update_enter, hsub, hlor]
  have hv := view_detail_congr (Update w m (Msg.key "enter")).1
    ⟨0, 0, true, optOCOR, true, true, []⟩ (by rw [e]) rfl (by rw [e]; exact hst)
  refine ⟨e, by rw [e]; simp [phase], by rw [e]; exact hst, ?_, ?_⟩
  · rw [hv]; decide
  · rw [hv]; decide

/-- Witness for C7 (amended): the submenu state with `subCursor = 2`. -/
theorem confirm_from_submenu_shows_detail_witness :
    Reachable (run initModel [K "enter", K "enter", K "down", K "down"]) ∧
    (run initModel [K "enter", K "enter", K "down", K "down"]).subCursor = 2 ∧
    (View (Update false (run initModel [K "enter", K "enter", K "down", K "down"])
      (Msg.key "enter")).1).map
      (fun v => stringsContains v "plantilla personalizada".toList
        && stringsContains v "[  ]".toList) = some true :=
  ⟨reachable_run Reachable.init _, by decide,
    (confirm_from_submenu_shows_detail false
      (run initModel [K "enter", K "enter", K "down", K "down"])
      (reachable_run Reachable.init _) (by decide) (by decide)).2.2.2.2⟩

/-! ## C8: cancel from the detail view -/

/-- C8: for every reachable state in the detail phase (`showLorem` set),
whatever its `copyStatus`, `Update` with esc clears `showLorem` and
`copyStatus` and changes nothing else, so the result is in the submenu phase
with `copyStatus == ""` and with `subCursor`, `cursor` and `option` as before
the event.  Moreover, if the state was reached from a submenu state `m0` by
enter followed by any messages other than esc, the `subCursor` after the esc
is the one `m0` had when the detail view was entered. -/
theorem cancel_from_detail (w : Bool) (m : model) (h : Reachable m)
    (hd : m.showLorem = true) :
    Update w m (Msg.key "esc") = ({ m with showLorem := false, copyStatus := [] }, Cmd.nil) ∧
    phase (Update w m (Msg.key "esc")).1 = Phase.SUBMENU ∧
    (Update w m (Msg.key "esc")).1.subOptions = true ∧
    (Update w m (Msg.key "esc")).1.showLorem = false ∧
    (Update w m (Msg.key "esc")).1.copyStatus = [] ∧
    (Update w m (Msg.key "esc")).1.subCursor = m.subCursor ∧
    (Update w m (Msg.key "esc")).1.cursor = m.cursor ∧
    (Update w m (Msg.key "esc")).1.option = m.option ∧
    ∀ (m0 : model) (w0 : Bool) (ins : List (Bool × Msg)),
      m0.subOptions = true → m0.showLorem = false →
      (∀ i ∈ ins, i.2 ≠ Msg.key "esc") →
      m = run (Update w0 m0 (Msg.key "enter")).1 ins →
      (Update w m (Msg.key "esc")).1.subCursor = m0.subCursor := by
  have hso := (inv_of_reachable h).lorem_sub hd
  have e : Update w m (Msg.key "esc") =
      ({ m with showLorem := false, copyStatus := [] }, Cmd.nil) := by
    simp [update_esc, hd]
  refine ⟨e, by rw [e]; simp [phase, hso], by rw [e]; exact hso, by rw [e], by rw [e],
    by rw [e], by rw [e], by rw [e], ?_⟩
  intro m0 w0 ins h0 h1 hne hm
  have e0 : Update w0 m0 (Msg.key "enter") = ({ m0 with showLorem := true }, Cmd.nil) := by
    simp [update_enter, h0, h1]
  have hrun := detail_run_no_esc ins (Update w0 m0 (Msg.key "enter")).1 (by rw [e0])
    (by rw [e0]; exact h0) hne
  rw [e]
  show m.subCursor = m0.subCursor
  rw [hm, hrun, e0]

/-- Witness for C8: the detail state after a copy, entered with `subCursor = 3`. -/
theorem cancel_from_detail_witness :
    Reachable (run initModel [K "enter", K "enter", K "j", K "j", K "j", K "enter", K "enter"]) ∧
    (run initModel [K "enter", K "enter", K "j", K "j", K "j", K "enter",
      K "enter"]).copyStatus = copiedText ∧
    Update false (run initModel [K "enter", K "enter", K "j", K "j", K "j", K "enter",
      K "enter"]) (Msg.key "esc") =
      (⟨0, 3, true, optOCOR, true, false, []⟩, Cmd.nil) :=
  ⟨reachable_run Reachable.init _, by decide,
    (cancel_from_detail false
      (run initModel [K "enter", K "enter", K "j", K "j", K "j", K "enter", K "enter"])
      (reachable_run Reachable.init _) (by decide)).1⟩

/-! ## C9: movement is clamped -/

/-- C9 as stated fails: after one enter the state is reachable and still
shows the top menu, with `cursor = 0`, away from the upper bound 1; yet down
(and j) returns the identical state, so the cursor does not change by one. -/
theorem move_blocked_once_selected :
    Reachable (run initModel [K "enter"]) ∧
    phase (run initModel [K "enter"]) = Phase.TOP ∧
    (run initModel [K "enter"]).cursor = 0 ∧
    Update false (run initModel [K "enter"]) (Msg.key "down") =
      (run initModel [K "enter"], Cmd.nil) ∧
    Update false (run initModel [K "enter"]) (Msg.key "j") =
      (run initModel [K "enter"], Cmd.nil) ∧
    (Update false (run initModel [K "enter"]) (Msg.key "down")).1.cursor ≠
      (run initModel [K "enter"]).cursor + 1 :=
  ⟨reachable_run Reachable.init _, by decide, by decide, by decide, by decide, by decide⟩

/-- C9, amended: `up` stands for either of the keys "up", "k" and `down` for
either of "down", "j".  In the top menu with nothing selected: at `cursor = 0`,
up returns the identical state, and at `cursor = 1`, down returns the identical
state; with `cursor > 0`, up decrements `cursor` by one, and with `cursor < 1`,
down increments it by one, nothing else changing.  In the top menu with an
option already selected (after the first confirm), up and down return the
identical state wherever the cursor is.  In the submenu (`subOptions` set,
`showLorem` not set): at `subCursor = 0`, up returns the identical state, and
at `subCursor = 4`, down returns the identical state; with `subCursor > 0`, up
decrements `subCursor` by one, and with `subCursor < 4`, down increments it by
one, nothing else changing.  No case wraps around. -/
theorem move_clamped (w : Bool) (m : model) (up down : String)
    (hup : up = "up" ∨ up = "k") (hdown : down = "down" ∨ down = "j") :
    (m.selected = false → m.subOptions = false → m.showLorem = false →
      (m.cursor = 0 → Update w m (Msg.key up) = (m, Cmd.nil)) ∧
      (m.cursor = 1 → Update w m (Msg.key down) = (m, Cmd.nil)) ∧
      (0 < m.cursor →
        Update w m (Msg.key up) = ({ m with cursor := m.cursor - 1 }, Cmd.nil)) ∧
      (m.cursor < 1 →
        Update w m (Msg.key down) = ({ m with cursor := m.cursor + 1 }, Cmd.nil))) ∧
    (m.selected = true → m.subOptions = false → m.showLorem = false →
      Update w m (Msg.key up) = (m, Cmd.nil) ∧
      Update w m (Msg.key down) = (m, Cmd.nil)) ∧
    (m.subOptions = true → m.showLorem = false →
      (m.subCursor = 0 → Update w m (Msg.key up) = (m, Cmd.nil)) ∧
      (m.subCursor = 4 → Update w m (Msg.key down) = (m, Cmd.nil)) ∧
      (0 < m.subCursor →
        Update w m (Msg.key up) = ({ m with subCursor := m.subCursor - 1 }, Cmd.nil)) ∧
      (m.subCursor < 4 →
        Update w m (Msg.key down) = ({ m with subCursor := m.subCursor + 1 }, Cmd.nil))) := by
  rw [update_up w m up hup, update_down w m down hdown]
  refine ⟨?_, ?_, ?_⟩
  · intro h1 h2 h3
    refine ⟨fun hc => ?_, fun hc => ?_, fun hc => ?_, fun hc => ?_⟩ <;>
      simp [h1, h2, h3, hc]
  · intro h1 h2 h3
    constructor <;> simp [h1, h2, h3]
  · intro h2 h3
    refine ⟨fun hc => ?_, fun hc => ?_, fun hc => ?_, fun hc => ?_⟩ <;>
      simp [h2, h3, hc]

/-- Witness for C9 (amended): the initial model at the lower bound of the top
menu and away from its upper bound, the state after one enter, where the
cursor no longer moves, and a submenu state at `subCursor = 4`. -/
theorem move_clamped_witness :
    Update false initModel (Msg.key "k") = (initModel, Cmd.nil) ∧
    Update false initModel (Msg.key "down") = ({ initModel with cursor := 1 }, Cmd.nil) ∧
    Update false ⟨0, 0, true, optOCOR, false, false, []⟩ (Msg.key "down") =
      (⟨0, 0, true, optOCOR, false, false, []⟩, Cmd.nil) ∧
    Update false ⟨0, 4, true, optOCOR, true, false, []⟩ (Msg.key "down") =
      (⟨0, 4, true, optOCOR, true, false, []⟩, Cmd.nil) ∧
    Update false ⟨0, 4, true, optOCOR, true, false, []⟩ (Msg.key "k") =
      (⟨0, 3, true, optOCOR, true, false, []⟩, Cmd.nil) :=
  ⟨((move_clamped false initModel "k" "down" (Or.inr rfl) (Or.inl rfl)).1 rfl rfl rfl).1 rfl,
   ((move_clamped false initModel "k" "down" (Or.inr rfl) (Or.inl rfl)).1 rfl rfl rfl).2.2.2
     (by decide),
   ((move_clamped false ⟨0, 0, true, optOCOR, false, false, []⟩ "k" "down" (Or.inr rfl)
     (Or.inl rfl)).2.1 rfl rfl rfl).2,
   ((move_clamped false ⟨0, 4, true, optOCOR, true, false, []⟩ "k" "down" (Or.inr rfl)
     (Or.inl rfl)).2.2 rfl rfl).2.1 rfl,
   ((move_clamped false ⟨0, 4, true, optOCOR, true, false, []⟩ "k" "down" (Or.inr rfl)
     (Or.inl rfl)).2.2 rfl rfl).2.2.1 (by decide)⟩

/-! ## C10: phase transitions -/

/-- C10: with the phases being the three screens `View` distinguishes, for
every reachable state `m` and every message, if `Update` changes the phase
then the step is one of: top menu to submenu by enter, submenu to detail by
enter, submenu to top menu by esc, detail to submenu by esc.  So no message
leads from the top menu to the detail view or back in one step, and the
movement keys, ctrl+c, unrecognised keys and non-key messages never change
the phase. -/
theorem phase_transitions_sequential (w : Bool) (m : model) (msg : Msg) (h : Reachable m)
    (hne : phase (Update w m msg).1 ≠ phase m) :
    (phase m = Phase.TOP ∧ msg = Msg.key "enter" ∧
      phase (Update w m msg).1 = Phase.SUBMENU) ∨
    (phase m = Phase.SUBMENU ∧ msg = Msg.key "enter" ∧
      phase (Update w m msg).1 = Phase.DETAIL) ∨
    (phase m = Phase.SUBMENU ∧ msg = Msg.key "esc" ∧
      phase (Update w m msg).1 = Phase.TOP) ∨
    (phase m = Phase.DETAIL ∧ msg = Msg.key "esc" ∧
      phase (Update w m msg).1 = Phase.SUBMENU) := by
  have hls := (inv_of_reachable h).lorem_sub
  by_cases he : msg = Msg.key "enter"
  · subst he
    rw [update_enter] at hne ⊢
    obtain ⟨c, sc, sel, opt, so, sl, cs⟩ := m
    cases sl <;> cases so <;> cases sel <;> simp_all [phase]
  · by_cases hc : msg = Msg.key "esc"
    · subst hc
      rw [update_esc] at hne ⊢
      obtain ⟨c, sc, sel, opt, so, sl, cs⟩ := m
      cases sl <;> cases so <;> cases sel <;> simp_all [phase]
    · exfalso
      apply hne
      obtain ⟨k1, k2, _⟩ := other_keys_keep_flags w m msg he hc
      simp only [phase, k1, k2]

/-- Witness for C10: the second enter, which leads from the top menu to the submenu. -/
theorem phase_transitions_sequential_witness :
    Reachable (run initModel [K "enter"]) ∧
    phase (Update false (run initModel [K "enter"]) (Msg.key "enter")).1
      ≠ phase (run initModel [K "enter"]) ∧
    ((phase (run initModel [K "enter"]) = Phase.TOP ∧ Msg.key "enter" = Msg.key "enter" ∧
      phase (Update false (run initModel [K "enter"]) (Msg.key "enter")).1 = Phase.SUBMENU) ∨
    (phase (run initModel [K "enter"]) = Phase.SUBMENU ∧ Msg.key "enter" = Msg.key "enter" ∧
      phase (Update false (run initModel [K "enter"]) (Msg.key "enter")).1 = Phase.DETAIL) ∨
    (phase (run initModel [K "enter"]) = Phase.SUBMENU ∧ Msg.key "enter" = Msg.key "esc" ∧
      phase (Update false (run initModel [K "enter"]) (Msg.key "enter")).1 = Phase.TOP) ∨
    (phase (run initModel [K "enter"]) = Phase.DETAIL ∧ Msg.key "enter" = Msg.key "esc" ∧
      phase (Update false (run initModel [K "enter"]) (Msg.key "enter")).1 = Phase.SUBMENU)) :=
  ⟨reachable_run Reachable.init _, by decide,
    phase_transitions_sequential false (run initModel [K "enter"]) (Msg.key "enter")
      (reachable_run Reachable.init _) (by decide)⟩

/-! ## C11: selection and phase -/

/-- C11 as stated fails: after one enter the state is reachable, the top menu
is still the screen drawn, and yet the selected option is `"OCOR"`, not NONE. -/
theorem option_set_while_top_menu_shown :
    Reachable (run initModel [K "enter"]) ∧
    phase (run initModel [K "enter"]) = Phase.TOP ∧
    (run initModel [K "enter"]).option = optOCOR ∧
    ¬ ((run initModel [K "enter"]).option = [] ↔ phase (run initModel [K "enter"]) = Phase.TOP) :=
  ⟨reachable_run Reachable.init _, by decide, by decide, by decide⟩

/-- C11, amended: in every reachable state the selected option is NONE
(`option == ""`) if and only if `selected` is unset; a state with no option
selected shows the top menu, and in the submenu and detail phases the option
is `"OCOR"` or `"CRAFT"` (the one at `cursor`).  The top menu is also the
screen of the state reached by the first confirm, where the option is
already set. -/
theorem option_none_iff_unselected (m : model) (h : Reachable m) :
    (m.option = [] ↔ m.selected = false) ∧
    (m.option = [] → phase m = Phase.TOP) ∧
    (phase m = Phase.SUBMENU ∨ phase m = Phase.DETAIL →
      m.option = (if m.cursor = 0 then optOCOR else optCRAFT) ∧
      (m.option = optOCOR ∨ m.option = optCRAFT)) ∧
    (m.option = [] ∨ m.option = optOCOR ∨ m.option = optCRAFT) := by
  have hi := inv_of_reachable h
  have e1 : optOCOR ≠ [] := by decide
  have e2 : optCRAFT ≠ [] := by decide
  obtain ⟨h1, h2, h3, h4, h5, h6, h7, h8, h9⟩ := hi
  obtain ⟨c, sc, sel, opt, so, sl, cs⟩ := m
  simp only at h1 h2 h3 h4 h5 h6 h7 h8 h9
  cases sel <;> cases so <;> cases sl <;> simp_all [phase] <;> split_ifs <;> simp_all

/-- Witness for C11 (amended): the detail state reached by down, enter, enter, enter. -/
theorem option_none_iff_unselected_witness :
    Reachable (run initModel [K "down", K "enter", K "enter", K "enter"]) ∧
    phase (run initModel [K "down", K "enter", K "enter", K "enter"]) = Phase.DETAIL ∧
    ((run initModel [K "down", K "enter", K "enter", K "enter"]).option = [] ↔
      (run initModel [K "down", K "enter", K "enter", K "enter"]).selected = false) :=
  ⟨reachable_run Reachable.init _, by decide,
    (option_none_iff_unselected (run initModel [K "down", K "enter", K "enter", K "enter"])
      (reachable_run Reachable.init _)).1⟩

/-! ## C12: the status outside the detail view -/

/-- C12: in every reachable state, `copyStatus != ""` implies that the state
is in the detail phase (`showLorem` set); in particular, for a reachable
submenu state, enter leads to a detail state with `copyStatus == ""`, although
that step does not assign `copyStatus`. -/
theorem status_empty_outside_detail (m : model) (h : Reachable m) :
    (m.copyStatus ≠ [] → m.showLorem = true ∧ phase m = Phase.DETAIL) ∧
    (∀ w : Bool, m.subOptions = true → m.showLorem = false →
      (Update w m (Msg.key "enter")).1.showLorem = true ∧
      (Update w m (Msg.key "enter")).1.copyStatus = m.copyStatus ∧
      (Update w m (Msg.key "enter")).1.copyStatus = []) := by
  have hst := (inv_of_reachable h).status_detail
  constructor
  · intro hne
    have hl : m.showLorem = true := by
      cases hs : m.showLorem with
      | true => rfl
      | false => exact absurd (hst hs) hne
    exact ⟨hl, by simp [phase, hl]⟩
  · intro w hsub hlor
    have e : Update w m (Msg.key "enter") = ({ m with showLorem := true }, Cmd.nil) := by
      simp [update_enter, hsub, hlor]
    rw [e]
    exact ⟨rfl, rfl, hst hlor⟩

/-- Witness for C12: the detail state after a copy, whose status is not empty. -/
theorem status_empty_outside_detail_witness :
    Reachable (run initModel [K "enter", K "enter", K "enter", K "enter"]) ∧
    (run initModel [K "enter", K "enter", K "enter", K "enter"]).copyStatus ≠ [] ∧
    (run initModel [K "enter", K "enter", K "enter", K "enter"]).showLorem = true :=
  ⟨reachable_run Reachable.init _, by decide,
    ((status_empty_outside_detail (run initModel [K "enter", K "enter", K "enter", K "enter"])
      (reachable_run Reachable.init _)).1 (by decide)).1⟩

/-! ## C15: each cursor changes only in its own phase -/

/-- C15: for every reachable state `m` and every message: if `Update` changes
`cursor`, then `m` shows the top menu (with nothing selected) and the message
is one of the movement keys up, k, down, j; if `Update` changes `subCursor`,
then either `m` is in the submenu phase and the message is a movement key, or
the message is the enter that leads from the top menu into the submenu, which
resets `subCursor` to 0.  In the detail phase the movement keys return the
state unchanged. -/
theorem cursors_change_only_in_own_phase (w : Bool) (m : model) (msg : Msg)
    (h : Reachable m) :
    ((Update w m msg).1.cursor ≠ m.cursor →
      phase m = Phase.TOP ∧ m.selected = false ∧
      (msg = Msg.key "up" ∨ msg = Msg.key "k" ∨ msg = Msg.key "down" ∨ msg = Msg.key "j")) ∧
    ((Update w m msg).1.subCursor ≠ m.subCursor →
      (phase m = Phase.SUBMENU ∧
        (msg = Msg.key "up" ∨ msg = Msg.key "k" ∨ msg = Msg.key "down" ∨ msg = Msg.key "j")) ∨
      (msg = Msg.key "enter" ∧ phase m = Phase.TOP ∧
        phase (Update w m msg).1 = Phase.SUBMENU ∧ (Update w m msg).1.subCursor = 0)) ∧
    (phase m = Phase.DETAIL →
      (msg = Msg.key "up" ∨ msg = Msg.key "k" ∨ msg = Msg.key "down" ∨ msg = Msg.key "j") →
      Update w m msg = (m, Cmd.nil)) := by
  have hi := inv_of_reachable h
  have hls := hi.lorem_sub
  have hss := hi.sub_sel
  by_cases he : msg = Msg.key "enter"
  · subst he
    rw [update_enter]
    obtain ⟨c, sc, sel, opt, so, sl, cs⟩ := m
    simp only at hls hss
    cases sl <;> cases so <;> cases sel <;> simp_all [phase]
  by_cases hc : msg = Msg.key "esc"
  · subst hc
    rw [update_esc]
    obtain ⟨c, sc, sel, opt, so, sl, cs⟩ := m
    simp only at hls hss
    cases sl <;> cases so <;> cases sel <;> simp_all [phase]
  by_cases hu : msg = Msg.key "up" ∨ msg = Msg.key "k"
  · have hu' : ∃ name, msg = Msg.key name ∧ (name = "up" ∨ name = "k") := by
      rcases hu with hu | hu
      · exact ⟨"up", hu, Or.inl rfl⟩
      · exact ⟨"k", hu, Or.inr rfl⟩
    obtain ⟨name, hm, hn⟩ := hu'
    subst hm
    rw [update_up w m name hn]
    obtain ⟨c, sc, sel, opt, so, sl, cs⟩ := m
    simp only at hls hss
    cases sl <;> cases so <;> cases sel <;> simp_all [phase] <;> split_ifs <;> simp_all <;>
      tauto
  by_cases hd : msg = Msg.key "down" ∨ msg = Msg.key "j"
  · have hd' : ∃ name, msg = Msg.key name ∧ (name = "down" ∨ name = "j") := by
      rcases hd with hd | hd
      · exact ⟨"down", hd, Or.inl rfl⟩
      · exact ⟨"j", hd, Or.inr rfl⟩
    obtain ⟨name, hm, hn⟩ := hd'
    subst hm
    rw [update_down w m name hn]
    obtain ⟨c, sc, sel, opt, so, sl, cs⟩ := m
    simp only at hls hss
    cases sl <;> cases so <;> cases sel <;> simp_all [phase] <;> split_ifs <;> simp_all
  · have hr := update_rest w m msg he hc (fun x => hu (Or.inl x)) (fun x => hu (Or.inr x))
      (fun x => hd (Or.inl x)) (fun x => hd (Or.inr x))
    refine ⟨fun hx => absurd (by rw [hr]) hx, fun hx => absurd (by rw [hr]) hx, ?_⟩
    rintro _ (hx | hx | hx | hx)
    · exact absurd (Or.inl hx) hu
    · exact absurd (Or.inr hx) hu
    · exact absurd (Or.inl hx) hd
    · exact absurd (Or.inr hx) hd

/-- Witness for C15: down in the initial model changes `cursor`, and the
initial model shows the top menu. -/
theorem cursors_change_only_in_own_phase_witness :
    (Update false initModel (Msg.key "down")).1.cursor ≠ initModel.cursor ∧
    phase initModel = Phase.TOP ∧
    (Update false (run initModel [K "enter", K "enter", K "enter"]) (Msg.key "down")) =
      (run initModel [K "enter", K "enter", K "enter"], Cmd.nil) :=
  ⟨by decide,
    ((cursors_change_only_in_own_phase false initModel (Msg.key "down") Reachable.init).1
      (by decide)).1,
    (cursors_change_only_in_own_phase false (run initModel [K "enter", K "enter", K "enter"])
      (Msg.key "down") (reachable_run Reachable.init _)).2.2 (by decide)
      (Or.inr (Or.inr (Or.inl rfl)))⟩

/-! ## C18: nesting of the three flags -/

/-- C18: in every reachable state `showLorem` implies `subOptions` and
`subOptions` implies `selected`, so `(selected, subOptions, showLorem)` is one
of the four nested combinations, and `showLorem` set with `selected` unset
does not occur. -/
theorem flags_nested (m : model) (h : Reachable m) :
    (m.showLorem = true → m.subOptions = true) ∧
    (m.subOptions = true → m.selected = true) ∧
    ((m.selected, m.subOptions, m.showLorem) = (false, false, false) ∨
     (m.selected, m.subOptions, m.showLorem) = (true, false, false) ∨
     (m.selected, m.subOptions, m.showLorem) = (true, true, false) ∨
     (m.selected, m.subOptions, m.showLorem) = (true, true, true)) ∧
    ¬ (m.showLorem = true ∧ m.selected = false) := by
  have hls := (inv_of_reachable h).lorem_sub
  have hss := (inv_of_reachable h).sub_sel
  obtain ⟨c, sc, sel, opt, so, sl, cs⟩ := m
  simp only at hls hss
  cases sl <;> cases so <;> cases sel <;> simp_all

/-- Witness for C18: each of the four nested combinations is reached, by zero
to three presses of enter. -/
theorem flags_nested_witness :
    ((run initModel []).selected, (run initModel []).subOptions,
      (run initModel []).showLorem) = (false, false, false) ∧
    ((run initModel [K "enter"]).selected, (run initModel [K "enter"]).subOptions,
      (run initModel [K "enter"]).showLorem) = (true, false, false) ∧
    ((run initModel [K "enter", K "enter"]).selected,
      (run initModel [K "enter", K "enter"]).subOptions,
      (run initModel [K "enter", K "enter"]).showLorem) = (true, true, false) ∧
    ((run initModel [K "enter", K "enter", K "enter"]).selected,
      (run initModel [K "enter", K "enter", K "enter"]).subOptions,
      (run initModel [K "enter", K "enter", K "enter"]).showLorem) = (true, true, true) ∧
    ¬ ((run initModel [K "enter", K "enter", K "enter"]).showLorem = true ∧
      (run initModel [K "enter", K "enter", K "enter"]).selected = false) :=
  ⟨by decide, by decide, by decide, by decide,
    (flags_nested (run initModel [K "enter", K "enter", K "enter"])
      (reachable_run Reachable.init _)).2.2.2⟩

/-! ## Rendering of reachable states -/

theorem view_top_congr (m m' : model) (h1 : m.showLorem = false)
    (h1' : m'.showLorem = false) (h2 : m.subOptions = false) (h2' : m'.subOptions = false)
    (h3 : m.cursor = m'.cursor) : View m = View m' := by
  simp [View, topContent, h1, h1', h2, h2', h3]

theorem view_viewKey (m : model) : View m = View (viewKey m) := by
  unfold viewKey
  split_ifs with h1 h2
  · exact view_detail_congr m _ h1 rfl rfl
  · exact view_submenu_congr m _ (by simpa using h1) rfl h2 rfl rfl rfl
  · exact view_top_congr m _ (by simpa using h1) rfl (by simpa using h2) rfl rfl

theorem viewKey_mem_of_reachable {m : model} (h : Reachable m) :
    viewKey m ∈ reachableKeys := by
  obtain ⟨h1, h2, h3, h4, h5, h6, h7, h8, h9⟩ := inv_of_reachable h
  obtain ⟨c, sc, sel, opt, so, sl, cs⟩ := m
  simp only at h1 h2 h3 h4 h5 h6 h7 h8 h9
  cases sl
  · cases so
    · rcases h1 with hc | hc <;> subst hc <;> simp [viewKey, reachableKeys]
    · have hsel := h5 rfl
      have hopt := h6 hsel
      have hsc : sc = 0 ∨ sc = 1 ∨ sc = 2 ∨ sc = 3 ∨ sc = 4 := by omega
      rcases h1 with hc | hc <;> subst hc <;> simp at hopt <;> subst hopt <;>
        rcases hsc with hs | hs | hs | hs | hs <;> subst hs <;>
        simp [viewKey, reachableKeys]
  · rcases h9 with hs | hs <;> subst hs <;> simp [viewKey, reachableKeys]

theorem view_all_of_reachable (P : GoString → Bool)
    (hP : ∀ k ∈ reachableKeys, (View k).all P = true) {m : model} (h : Reachable m)
    (v : GoString) (hv : View m = some v) : P v = true := by
  have hk := hP (viewKey m) (viewKey_mem_of_reachable h)
  rw [← view_viewKey, hv] at hk
  exact hk

theorem view_isSome_of_empty_status {m : model} (h : Reachable m) (hs : m.copyStatus = []) :
    (View m).isSome = true := by
  have hall : ∀ k ∈ reachableKeys, k.copyStatus = [] → (View k).isSome = true := by decide
  have hk : (viewKey m).copyStatus = [] := by
    unfold viewKey
    split_ifs <;> simp [hs]
  rw [view_viewKey]
  exact hall _ (viewKey_mem_of_reachable h) hk

/-! ## C13: width of the lines of the box -/

/-- C13 as stated fails: the view of the initial model has non-empty lines of
visible widths 27, 27, 11, 15, 12, 27, 27: the two option lines and the blank
line under them are narrower than the border lines. -/
theorem top_menu_lines_differ_in_width :
    Reachable initModel ∧
    (View initModel).map
      (fun v => ((outputLines v).filter (fun l => !l.isEmpty)).map visibleWidth)
      = some [27, 27, 11, 15, 12, 27, 27] :=
  ⟨Reachable.init, by decide⟩

/-- C13, amended: for every reachable state, in all three phases, every output
of `View` starts with the top border line and a spacing line and ends with a
spacing line and the bottom border line, and these four lines have the same
visible width, 27, whatever the option name, the cursor position and the
status; `View` does return an output whenever the status is empty. -/
theorem frame_lines_fixed_width (m : model) (h : Reachable m) :
    (m.copyStatus = [] → (View m).isSome = true) ∧
    ∀ v, View m = some v →
      (outputLines v).take 2 = [borderTop, spacing] ∧
      ((outputLines v).reverse.take 3).reverse = [spacing, borderBottom, []] ∧
      ((outputLines v).take 2).map visibleWidth = [27, 27] ∧
      (((outputLines v).reverse.take 3).reverse).map visibleWidth = [27, 27, 0] := by
  refine ⟨fun hs => view_isSome_of_empty_status h hs, fun v hv => ?_⟩
  have hP := view_all_of_reachable
    (fun v => decide ((outputLines v).take 2 = [borderTop, spacing] ∧
      ((outputLines v).reverse.take 3).reverse = [spacing, borderBottom, []] ∧
      ((outputLines v).take 2).map visibleWidth = [27, 27] ∧
      (((outputLines v).reverse.take 3).reverse).map visibleWidth = [27, 27, 0]))
    (by decide) h v hv
  exact of_decide_eq_true hP

/-- Witness for C13 (amended): the submenu state reached by down, enter, enter, down. -/
theorem frame_lines_fixed_width_witness :
    Reachable (run initModel [K "down", K "enter", K "enter", K "down"]) ∧
    (View (run initModel [K "down", K "enter", K "enter", K "down"])).isSome = true ∧
    (View (run initModel [K "down", K "enter", K "enter", K "down"])).map
      (fun v => ((outputLines v).take 2).map visibleWidth) = some [27, 27] := by
  refine ⟨reachable_run Reachable.init _, by decide, ?_⟩
  cases hv : View (run initModel [K "down", K "enter", K "enter", K "down"]) with
  | none => exact absurd hv (by decide)
  | some v =>
    have hw := ((frame_lines_fixed_width
      (run initModel [K "down", K "enter", K "enter", K "down"])
      (reachable_run Reachable.init _)).2 v hv).2.2.1
    simp only [Option.map_some', hw]

/-! ## C16: rendering of the submenu -/

/-- C16 as stated fails: in the submenu state reached by enter, enter (option
`"OCOR"`, `subCursor = 0`) the output of `View` does not contain `OCOR1`, the
option name immediately followed by the index; it contains `OCOR 1`. -/
theorem submenu_label_has_blank :
    Reachable (run initModel [K "enter", K "enter"]) ∧
    phase (run initModel [K "enter", K "enter"]) = Phase.SUBMENU ∧
    (run initModel [K "enter", K "enter"]).option = "OCOR".toList ∧
    (View (run initModel [K "enter", K "enter"])).map
      (fun v => (stringsContains v "OCOR1".toList, stringsContains v "OCOR 1".toList))
      = some (false, true) :=
  ⟨reachable_run Reachable.init _, by decide, by decide, by decide⟩

/-- C16, amended: for every reachable state in the submenu phase with option
`o` and `subCursor = c`, `View` returns an output whose lines, stripped of
surrounding white space, are the top border, a spacing line, exactly five
option lines in the order 1..5, a blank line, a spacing line and the bottom
border.  Option line `i` reads `o`, a blank, `i`; the line with `i = c + 1`,
and only that one, starts with the marker `"> "` and is yellow (`ESC[33m`),
the other four are green (`ESC[32m`) and carry no marker. -/
theorem submenu_rendering (m : model) (h : Reachable m) (hp : phase m = Phase.SUBMENU) :
    (View m).map (fun v => (outputLines v).map stringsTrimSpace) =
      some ([borderTop, spacing]
        ++ (List.range 5).map (fun j => expectedSubLine m.option m.subCursor (j + 1))
        ++ [[], spacing, borderBottom, []]) := by
  have hl : m.showLorem = false := by
    cases hs : m.showLorem with
    | false => rfl
    | true => simp [phase, hs] at hp
  have hso : m.subOptions = true := by
    cases hs : m.subOptions with
    | true => rfl
    | false => simp [phase, hs, hl] at hp
  have hk : viewKey m = ⟨0, m.subCursor, true, m.option, true, false, []⟩ := by
    simp [viewKey, hl, hso]
  have hall : ∀ k ∈ reachableKeys, phase k = Phase.SUBMENU →
      (View k).map (fun v => (outputLines v).map stringsTrimSpace) =
        some ([borderTop, spacing]
          ++ (List.range 5).map (fun j => expectedSubLine k.option k.subCursor (j + 1))
          ++ [[], spacing, borderBottom, []]) := by
    decide
  have hmem := viewKey_mem_of_reachable h
  have hph : phase (viewKey m) = Phase.SUBMENU := by rw [hk]; rfl
  have hres := hall _ hmem hph
  rw [← view_viewKey] at hres
  rw [hres, hk]

/-- Witness for C16 (amended): the submenu state with option `"CRAFT"` and `subCursor = 2`. -/
theorem submenu_rendering_witness :
    Reachable (run initModel [K "down", K "enter", K "enter", K "down", K "down"]) ∧
    (View (run initModel [K "down", K "enter", K "enter", K "down", K "down"])).map
      (fun v => (outputLines v).map stringsTrimSpace) =
      some [borderTop, spacing, "\x1b[32mCRAFT 1\x1b[0m".toList,
        "\x1b[32mCRAFT 2\x1b[0m".toList, "> \x1b[33mCRAFT 3\x1b[0m".toList,
        "\x1b[32mCRAFT 4\x1b[0m".toList, "\x1b[32mCRAFT 5\x1b[0m".toList,
        [], spacing, borderBottom, []] :=
  ⟨reachable_run Reachable.init _,
    (submenu_rendering (run initModel [K "down", K "enter", K "enter", K "down", K "down"])
      (reachable_run Reachable.init _) (by decide)).trans (by decide)⟩

/-! ## C17: rendering of the top menu -/

/-- C17: for every state in which the top menu is the screen shown and
`cursor` is 0 or 1, `View` returns an output whose lines, stripped of
surrounding white space, are the top border, a spacing line, exactly two
option lines, OCOR first and CRAFT second, a blank line, a spacing line and
the bottom border.  The option line at `cursor` starts with the marker `"> "`
and has its own colour, blue (`ESC[34m`) for OCOR and red (`ESC[31m`) for
CRAFT; the other option line is the bare name, without marker or colour
escape. -/
theorem top_menu_rendering (m : model) (hp : phase m = Phase.TOP)
    (hc : m.cursor = 0 ∨ m.cursor = 1) :
    (View m).map (fun v => (outputLines v).map stringsTrimSpace) =
      some ([borderTop, spacing] ++ expectedTopLines m.cursor
        ++ [[], spacing, borderBottom, []]) ∧
    expectedTopLines 0 = ["> \x1b[34mOCOR\x1b[0m".toList, "CRAFT".toList] ∧
    expectedTopLines 1 = ["OCOR".toList, "> \x1b[31mCRAFT\x1b[0m".toList] := by
  have hl : m.showLorem = false := by
    cases hs : m.showLorem with
    | false => rfl
    | true => simp [phase, hs] at hp
  have hso : m.subOptions = false := by
    cases hs : m.subOptions with
    | false => rfl
    | true => simp [phase, hs, hl] at hp
  have hk : viewKey m = ⟨m.cursor, 0, false, [], false, false, []⟩ := by
    simp [viewKey, hl, hso]
  refine ⟨?_, by decide, by decide⟩
  rw [view_viewKey, hk]
  rcases hc with hc | hc <;> rw [hc] <;> decide

/-- Witness for C17: the state after down and enter, which still shows the
top menu, with `cursor = 1`. -/
theorem top_menu_rendering_witness :
    phase (run initModel [K "down", K "enter"]) = Phase.TOP ∧
    (run initModel [K "down", K "enter"]).cursor = 1 ∧
    (View (run initModel [K "down", K "enter"])).map
      (fun v => (outputLines v).map stringsTrimSpace) =
      some [borderTop, spacing, "OCOR".toList, "> \x1b[31mCRAFT\x1b[0m".toList,
        [], spacing, borderBottom, []] :=
  ⟨by decide, by decide,
    (top_menu_rendering (run initModel [K "down", K "enter"]) (by decide)
      (Or.inr (by decide))).1.trans (by decide)⟩

/-! ## C19: confirm followed by cancel -/

/-- C19: for every reachable state `m` that is not in the detail phase
(`showLorem` not set), enter followed by esc leads to a state that `View` draws
exactly as it draws `m` (and `View` does return an output for it), and that
equals `m` in every field except possibly `subCursor`: it is `m` itself, or
`m` with `subCursor = 0` when `m` has an option selected but the submenu is
not open. -/
theorem confirm_then_cancel (w1 w2 : Bool) (m : model) (h : Reachable m)
    (hl : m.showLorem = false) :
    View (run m [(w1, Msg.key "enter"), (w2, Msg.key "esc")]) = View m ∧
    (View m).isSome = true ∧
    run m [(w1, Msg.key "enter"), (w2, Msg.key "esc")] =
      { m with subCursor := (run m [(w1, Msg.key "enter"), (w2, Msg.key "esc")]).subCursor } ∧
    run m [(w1, Msg.key "enter"), (w2, Msg.key "esc")] =
      (if m.selected = true ∧ m.subOptions = false then { m with subCursor := 0 } else m) := by
  obtain ⟨h1, h2, h3, h4, h5, h6, h7, h8, h9⟩ := inv_of_reachable h
  have hst := h8 hl
  have hsome := view_isSome_of_empty_status h hst
  have hrun : run m [(w1, Msg.key "enter"), (w2, Msg.key "esc")] =
      (if m.selected = true ∧ m.subOptions = false then { m with subCursor := 0 } else m) := by
    obtain ⟨c, sc, sel, opt, so, sl, cs⟩ := m
    simp only at hl hst h5 h7
    subst hl hst
    cases so
    · cases sel
      · have ho := h7 rfl
        subst ho
        simp [run, update_enter, update_esc]
      · simp [run, update_enter, update_esc]
    · have hs := h5 rfl
      subst hs
      simp [run, update_enter, update_esc]
  refine ⟨?_, hsome, ?_, hrun⟩
  · rw [hrun]
    split_ifs with hc
    · exact view_top_congr _ m hl hl hc.2 hc.2 rfl
    · rfl
  · rw [hrun]
    split_ifs <;> rfl

/-- Witness for C19: the state after one enter (option selected, submenu not
open) moved to it from a submenu position 3, where the round trip resets
`subCursor`. -/
theorem confirm_then_cancel_witness :
    Reachable (run initModel [K "enter", K "enter", K "j", K "j", K "j", K "esc"]) ∧
    (run initModel [K "enter", K "enter", K "j", K "j", K "j", K "esc"]).subCursor = 3 ∧
    (run (run initModel [K "enter", K "enter", K "j", K "j", K "j", K "esc"])
      [(false, Msg.key "enter"), (false, Msg.key "esc")]).subCursor = 0 ∧
    View (run (run initModel [K "enter", K "enter", K "j", K "j", K "j", K "esc"])
      [(false, Msg.key "enter"), (false, Msg.key "esc")]) =
      View (run initModel [K "enter", K "enter", K "j", K "j", K "j", K "esc"]) :=
  ⟨reachable_run Reachable.init _, by decide, by decide,
    (confirm_then_cancel false false
      (run initModel [K "enter", K "enter", K "j", K "j", K "j", K "esc"])
      (reachable_run Reachable.init _) (by decide)).1⟩

/-! ## Splitting, joining and trimming -/

theorem stringsSplit_ne_nil (sep : Char) (s : GoString) : stringsSplit sep s ≠ [] := by
  cases s with
  | nil => simp [stringsSplit]
  | cons c cs =>
    simp only [stringsSplit]
    split_ifs
    · simp
    · split <;> simp

theorem stringsSplit_no_sep (sep : Char) (s : GoString) :
    ∀ p ∈ stringsSplit sep s, sep ∉ p := by
  induction s with
  | nil => simp [stringsSplit]
  | cons c cs ih =>
    simp only [stringsSplit]
    split_ifs with hc
    · intro p hp
      rcases List.mem_cons.1 hp with hp | hp
      · subst hp; simp
      · exact ih p hp
    · split
      · rename_i heq
        exact absurd heq (stringsSplit_ne_nil sep cs)
      · rename_i piece pieces heq
        rw [heq] at ih
        intro p hp
        rcases List.mem_cons.1 hp with hp | hp
        · subst hp
          intro hmem
          rcases List.mem_cons.1 hmem with hm | hm
          · exact hc hm.symm
          · exact ih piece (List.mem_cons_self _ _) hm
        · exact ih p (List.mem_cons_of_mem _ hp)

theorem stringsSplit_of_not_mem (sep : Char) (p : GoString) (h : sep ∉ p) :
    stringsSplit sep p = [p] := by
  induction p with
  | nil => rfl
  | cons c cs ih =>
    have hc : ¬ c = sep := fun e => h (by rw [e]; exact List.mem_cons_self _ _)
    have hcs : sep ∉ cs := fun e => h (List.mem_cons_of_mem _ e)
    simp only [stringsSplit, if_neg hc, ih hcs]

theorem stringsSplit_append_sep (sep : Char) (p rest : GoString) (h : sep ∉ p) :
    stringsSplit sep (p ++ sep :: rest) = p :: stringsSplit sep rest := by
  induction p with
  | nil => simp [stringsSplit]
  | cons c cs ih =>
    have hc : ¬ c = sep := fun e => h (by rw [e]; exact List.mem_cons_self _ _)
    have hcs : sep ∉ cs := fun e => h (List.mem_cons_of_mem _ e)
    have e : stringsSplit sep (c :: (cs ++ sep :: rest)) = (c :: cs) :: stringsSplit sep rest := by
      simp only [stringsSplit, if_neg hc, ih hcs]
    exact e

theorem stringsSplit_join (sep : Char) (ls : List GoString) (hne : ls ≠ [])
    (h : ∀ p ∈ ls, sep ∉ p) : stringsSplit sep (stringsJoin [sep] ls) = ls := by
  induction ls with
  | nil => exact absurd rfl hne
  | cons p ps ih =>
    cases ps with
    | nil => exact stringsSplit_of_not_mem sep p (h p (List.mem_cons_self _ _))
    | cons q qs =>
      have hp := h p (List.mem_cons_self _ _)
      have hrest := ih (by simp) (fun x hx => h x (List.mem_cons_of_mem _ hx))
      simp only [stringsJoin, List.append_assoc, List.singleton_append]
      rw [stringsSplit_append_sep sep p _ hp, hrest]

theorem mem_of_mem_trimSpace (c : Char) (l : GoString) (h : c ∈ stringsTrimSpace l) : c ∈ l := by
  unfold stringsTrimSpace at h
  have h1 := List.mem_reverse.1 h
  have h2 := (List.dropWhile_sublist isSpace).subset h1
  have h3 := List.mem_reverse.1 h2
  exact (List.dropWhile_sublist isSpace).subset h3

theorem trimSpace_eq_rdropWhile (l : GoString) :
    stringsTrimSpace l = List.rdropWhile isSpace (List.dropWhile isSpace l) := rfl

theorem dropWhile_trimSpace (l : GoString) :
    List.dropWhile isSpace (stringsTrimSpace l) = stringsTrimSpace l := by
  rw [trimSpace_eq_rdropWhile]
  obtain ⟨y, hy⟩ := List.rdropWhile_prefix isSpace (List.dropWhile isSpace l)
  have hd : List.dropWhile isSpace (List.dropWhile isSpace l) = List.dropWhile isSpace l :=
    List.dropWhile_idempotent _ _
  generalize List.dropWhile isSpace l = d at hy hd
  generalize List.rdropWhile isSpace d = x at hy
  cases x with
  | nil => rfl
  | cons a x' =>
    subst hy
    have ha : ¬ isSpace a = true := by
      have := List.dropWhile_eq_self_iff.1 hd (by simp)
      simpa using this
    simp [List.dropWhile_cons, ha]

theorem dropWhile_replicate_space (n : Nat) (t : GoString) :
    List.dropWhile isSpace (List.replicate n ' ' ++ t) = List.dropWhile isSpace t := by
  have hsp : isSpace ' ' = true := by decide
  induction n with
  | zero => rfl
  | succ k ih => simp [List.replicate_succ, List.dropWhile_cons, hsp, ih]

theorem trimSpace_centeredLine (width : Int) (l : GoString) :
    stringsTrimSpace (centeredLine width l) = stringsTrimSpace l := by
  unfold centeredLine
  rw [trimSpace_eq_rdropWhile, dropWhile_replicate_space, dropWhile_trimSpace,
    trimSpace_eq_rdropWhile, List.rdropWhile_idempotent]

theorem centeredLine_no_newline (width : Int) (l : GoString) (h : '\n' ∉ l) :
    '\n' ∉ centeredLine width l := by
  unfold centeredLine
  intro hm
  rcases List.mem_append.1 hm with hm | hm
  · have := List.eq_of_mem_replicate hm
    exact absurd this (by decide)
  · exact h (mem_of_mem_trimSpace _ _ hm)

theorem len_blank : len [' '] = 1 := by decide

theorem stringsRepeat_blank (count : Int) :
    stringsRepeat [' '] count =
      if count < 0 ∨ (maxAlloc : Int) < count then none
      else some (List.replicate count.toNat ' ') := by
  have hflat : ∀ n : Nat, (List.replicate n [' ']).flatten = List.replicate n ' ' := by
    intro n
    induction n with
    | zero => rfl
    | succ k ih => simp [List.replicate_succ, ih]
  unfold stringsRepeat
  rw [len_blank, one_mul]
  by_cases h1 : count < 0
  · simp [h1]
  · by_cases h2 : (maxAlloc : Int) < count
    · simp [h1, h2]
    · simp [h1, h2, hflat]

theorem centerLines_eq_some (width : Int) (ls cs : List GoString)
    (h : centerLines width ls = some cs) :
    (∀ l ∈ ls, 0 ≤ padding width l ∧ padding width l ≤ maxAlloc) ∧
      cs = ls.map (centeredLine width) := by
  induction ls generalizing cs with
  | nil =>
    simp only [centerLines, Option.some.injEq] at h
    subst h
    simp
  | cons l rest ih =>
    simp only [centerLines, stringsRepeat_blank] at h
    by_cases hbad : padding width l < 0 ∨ (maxAlloc : Int) < padding width l
    · simp [hbad] at h
    · simp only [if_neg hbad] at h
      cases hr : centerLines width rest with
      | none => simp [hr] at h
      | some cs' =>
        obtain ⟨ih1, ih2⟩ := ih cs' hr
        simp only [hr, Option.some.injEq] at h
        subst h
        refine ⟨?_, ?_⟩
        · intro x hx
          rcases List.mem_cons.1 hx with hx | hx
          · subst hx
            constructor <;> omega
          · exact ih1 x hx
        · simp [ih2, centeredLine, padding]

theorem centerLines_of_bounds (width : Int) (ls : List GoString)
    (h : ∀ l ∈ ls, 0 ≤ padding width l ∧ padding width l ≤ maxAlloc) :
    centerLines width ls = some (ls.map (centeredLine width)) := by
  induction ls with
  | nil => rfl
  | cons l rest ih =>
    have hl : ¬ (padding width l < 0 ∨ (maxAlloc : Int) < padding width l) := by
      have := h l (List.mem_cons_self _ _)
      omega
    have hrest := ih (fun x hx => h x (List.mem_cons_of_mem _ hx))
    simp only [centerLines, stringsRepeat_blank, if_neg hl, hrest]
    simp [centeredLine, padding]

theorem padding_centeredLine (width : Int) (l : GoString) :
    padding width (centeredLine width l) = padding width l := by
  unfold padding
  rw [trimSpace_centeredLine]

theorem centeredLine_centeredLine (width : Int) (l : GoString) :
    centeredLine width (centeredLine width l) = centeredLine width l := by
  have h := trimSpace_centeredLine width l
  unfold centeredLine at h ⊢
  rw [h]

theorem outputLines_centerText (text out : GoString) (width : Int)
    (h : centerText text width = some out) :
    (∀ l ∈ outputLines text, 0 ≤ padding width l ∧ padding width l ≤ maxAlloc) ∧
    out = stringsJoin ['\n'] ((outputLines text).map (centeredLine width)) ∧
    outputLines out = (outputLines text).map (centeredLine width) := by
  unfold centerText at h
  cases hc : centerLines width (stringsSplit '\n' text) with
  | none => simp [hc] at h
  | some cs =>
    obtain ⟨h1, h2⟩ := centerLines_eq_some width _ cs hc
    simp only [hc, Option.some.injEq] at h
    subst h2
    refine ⟨h1, h.symm, ?_⟩
    rw [← h]
    unfold outputLines
    apply stringsSplit_join
    · simpa using stringsSplit_ne_nil '\n' text
    · intro p hp
      obtain ⟨l, hl, rfl⟩ := List.mem_map.1 hp
      exact centeredLine_no_newline width l (stringsSplit_no_sep '\n' text l hl)

/-! ## C14: what centring computes -/

/-- C20: for every text and width on which `centerText` returns (every line
gets a padding that is not negative and that `strings.Repeat` can allocate),
centring the result again with the same width returns the same result. -/
theorem centerText_idempotent (text out : GoString) (width : Int)
    (h : centerText text width = some out) : centerText out width = some out := by
  obtain ⟨hpad, hout, hlines⟩ := outputLines_centerText text out width h
  have hpad2 : ∀ l ∈ outputLines out,
      0 ≤ padding width l ∧ padding width l ≤ maxAlloc := by
    intro l hl
    rw [hlines] at hl
    obtain ⟨l0, hl0, rfl⟩ := List.mem_map.1 hl
    rw [padding_centeredLine]
    exact hpad l0 hl0
  have hc := centerLines_of_bounds width (outputLines out) hpad2
  have hmap : (outputLines out).map (centeredLine width) = outputLines out := by
    rw [hlines, List.map_map]
    apply List.map_congr_left
    intro l _
    exact centeredLine_centeredLine width l
  rw [hmap] at hc
  unfold centerText
  unfold outputLines at hc
  rw [hc]
  show some (stringsJoin ['\n'] (outputLines out)) = some out
  rw [hlines, ← hout]

/-- Witness for C20: a two-line text centred in 11 columns, and centred again. -/
theorem centerText_idempotent_witness :
    centerText "  hola \n mundo".toList 11 = some "   hola\n   mundo".toList ∧
    centerText "   hola\n   mundo".toList 11 = some "   hola\n   mundo".toList :=
  ⟨by decide,
    centerText_idempotent "  hola \n mundo".toList "   hola\n   mundo".toList 11 (by decide)⟩

end MenuNav
